import Mathlib

/-!
Shallow embedding of the `wad` crate (r-thomson/rdoom): the bounds-checked
lump cursor (`src/wad/src/lump_parser.rs`), the WAD container types
(`src/wad/src/lib.rs`) and the lump decoders (`src/wad/src/lumps.rs`).

Modelling conventions:
* a byte buffer is a `List Nat` (each element is a byte value);
* little-endian signed decoding (`i16::from_le_bytes`, `i32::from_le_bytes`)
  is explicit arithmetic on `Int`;
* the crate's error type is `()` (see the TODO in `lump_parser.rs`), so every
  failure the spec names (`TruncatedInput`, `TrailingData`, `OutOfBounds`,
  `InvalidCharacter`, ...) is `Except.error ()` here;
* a Rust panic (slice-index out of range, `unwrap` on `Err`, failed
  `assert`) is modelled as `none` in an outer `Option` layer, kept distinct
  from an orderly `Except.error ()` return.
-/

namespace RDoom

/-- Little-endian unsigned value of a byte list (least significant byte first). -/
def leVal : List Nat → Nat
  | [] => 0
  | b :: bs => b + 256 * leVal bs

/-- Model of `i16::from_le_bytes` on a 2-byte list: two's-complement signed value. -/
def toI16 (bs : List Nat) : Int :=
  let u := leVal bs
  if u < 32768 then (u : Int) else (u : Int) - 65536

/-- Model of `i32::from_le_bytes` on a 4-byte list: two's-complement signed value. -/
def toI32 (bs : List Nat) : Int :=
  let u := leVal bs
  if u < 2147483648 then (u : Int) else (u : Int) - 4294967296

/-- Model of `v as usize` (and `v as u64`) for an `i32` value on a 64-bit
target: sign-extension reinterpreted as an unsigned 64-bit value. -/
def usizeOfI32 (v : Int) : Nat :=
  (v % 18446744073709551616).toNat

/-- Model of `LumpParser` (`lump_parser.rs`): the unread suffix of the lump. -/
structure LumpParser where
  remaining : List Nat
deriving DecidableEq

/-- Model of `LumpParser::new`. -/
def LumpParser.new (data : List Nat) : LumpParser := ⟨data⟩

/-- Model of `LumpParser::read_slice`: `split_at_checked(n)` succeeds exactly
when `n` bytes remain; on failure `remaining` is set to the empty slice and
`Err(())` is returned. The updated parser is returned alongside the result. -/
def LumpParser.read_slice (p : LumpParser) (n : Nat) :
    Except Unit (List Nat) × LumpParser :=
  if n ≤ p.remaining.length then
    (Except.ok (p.remaining.take n), ⟨p.remaining.drop n⟩)
  else
    (Except.error (), ⟨[]⟩)

/-- Model of `LumpParser::read_chunk::<N>`: delegates to `read_slice` (the
`try_into().unwrap()` on a slice of length `N` cannot fail). -/
def LumpParser.read_chunk (p : LumpParser) (n : Nat) :
    Except Unit (List Nat) × LumpParser :=
  p.read_slice n

/-- Model of `LumpParser::read_i16`: next 2 bytes as a little-endian `i16`. -/
def LumpParser.read_i16 (p : LumpParser) : Except Unit Int × LumpParser :=
  match p.read_chunk 2 with
  | (Except.ok bs, p2) => (Except.ok (toI16 bs), p2)
  | (Except.error e, p2) => (Except.error e, p2)

/-- Model of `LumpParser::read_i32`: next 4 bytes as a little-endian `i32`. -/
def LumpParser.read_i32 (p : LumpParser) : Except Unit Int × LumpParser :=
  match p.read_chunk 4 with
  | (Except.ok bs, p2) => (Except.ok (toI32 bs), p2)
  | (Except.error e, p2) => (Except.error e, p2)

/-- Model of `LumpParser::has_data_left`. -/
def LumpParser.has_data_left (p : LumpParser) : Bool :=
  !p.remaining.isEmpty

/-- Model of `LumpParser::finish`: fails if unread bytes remain. -/
def LumpParser.finish (p : LumpParser) : Except Unit Unit :=
  if p.has_data_left then Except.error () else Except.ok ()

/-- Model of `WadString` (`lib.rs`): the 8 raw name bytes. -/
structure WadString where
  bytes : List Nat
deriving DecidableEq

/-- Model of `WadString::new`: fails when any byte is greater than 127. -/
def WadString.new (bytes : List Nat) : Except Unit WadString :=
  if bytes.any (fun b => 127 < b) then Except.error ()
  else Except.ok ⟨bytes⟩

/-- The name `WadString::from_bytes` used by `lumps.rs` for the constructor
of `WadString` defined in `lib.rs` as `WadString::new`. -/
def WadString.from_bytes : List Nat → Except Unit WadString :=
  WadString.new

/-- Model of the `map_while` body in `impl fmt::Display for WadString`:
stop at the first `0`, turn bytes `1..=127` into characters, and any larger
byte hits the `panic` arm (modelled as `none`). -/
def fmtMapWhile : List Nat → Option (List Char)
  | [] => some []
  | b :: bs =>
    if b = 0 then some []
    else if b ≤ 127 then
      match fmtMapWhile bs with
      | some cs => some (Char.ofNat b :: cs)
      | none => none
    else none

/-- Model of `WadString`'s `Display` rendering. -/
def WadString.fmt (s : WadString) : Option (List Char) :=
  fmtMapWhile s.bytes

/-- Model of `WadDirectoryEntry` (`lib.rs`): little-endian offset, size and
the 8-byte lump name. -/
structure WadDirectoryEntry where
  offset_bytes : Int
  size_bytes : Int
  lump_name : WadString
deriving DecidableEq

/-- Model of `WadDirectoryEntry::new` on a 16-byte record:
`offset = data[0..4]`, `size = data[4..8]`, `name = data[8..16]`.
The code calls `WadString::new(...).unwrap()`, so a non-ASCII name byte is a
panic (`none`), never `Err`; the `Result` return type's error branch is
unreachable. -/
def WadDirectoryEntry.new (data : List Nat) : Option WadDirectoryEntry :=
  match WadString.new ((data.drop 8).take 8) with
  | Except.error _ => none
  | Except.ok name =>
    some ⟨toI32 (data.take 4), toI32 ((data.drop 4).take 4), name⟩

/-- Model of `WadDirectoryEntry::read_lump`. The backing file is `storage`
(the full byte content of the WAD file); `bufLen` is the length of the
caller's buffer. The function 1. `assert`s `buf.len() == size_bytes as usize`
(failure is a panic, `none`); 2. seeks to `offset_bytes as u64` (seeking past
the end of a regular file succeeds); 3. `read_exact`s `bufLen` bytes, which
succeeds exactly when that many bytes are available at the seek position —
the bytes available there are `storage.length - off` (zero when the offset
is past the end), and `read_exact` on an empty buffer returns `Ok` without
reading, so a zero-length read succeeds even past the end. On success the
result is the bytes the buffer is filled with. -/
def WadDirectoryEntry.read_lump (e : WadDirectoryEntry) (bufLen : Nat)
    (storage : List Nat) : Option (Except Unit (List Nat)) :=
  if bufLen = usizeOfI32 e.size_bytes then
    let off := usizeOfI32 e.offset_bytes
    if bufLen ≤ storage.length - off then
      some (Except.ok ((storage.drop off).take bufLen))
    else
      some (Except.error ())
  else
    none

/-- Model of `playpal::Color` (`lumps.rs`). -/
structure Color where
  r : Nat
  g : Nat
  b : Nat
deriving DecidableEq

/-- Model of `playpal::Color::from_bytes` on a 3-byte chunk. -/
def Color.from_bytes (data : List Nat) : Color :=
  ⟨data.getD 0 0, data.getD 1 0, data.getD 2 0⟩

/-- Model of `playpal::Palette`. -/
structure Palette where
  colors : List Color
deriving DecidableEq

/-- Exact 3-byte chunks of a list, any remainder discarded: model of
`bytes.as_chunks::<3>().0` (for the 768-byte input the remainder is empty). -/
def chunksOf3 : List Nat → List (List Nat)
  | b0 :: b1 :: b2 :: rest => [b0, b1, b2] :: chunksOf3 rest
  | _ => []

/-- Model of `playpal::Palette::from_bytes` on a 768-byte chunk: each 3-byte
chunk becomes a `Color`, in order. -/
def Palette.from_bytes (bytes : List Nat) : Palette :=
  ⟨(chunksOf3 bytes).map Color.from_bytes⟩

/-- Model of `PlaypalLump`. -/
structure PlaypalLump where
  palettes : List Palette
deriving DecidableEq

/-- Translation of the `while parser.has_data_left()` loop in
`PlaypalLump::parse`, as recursion on the parser's remaining bytes. Each
iteration is `parser.read_chunk::<768>()?` (inlined: it succeeds exactly when
768 bytes remain, consuming them; otherwise the loop aborts with its error)
followed by pushing the decoded palette. -/
def parsePalettes (l : List Nat) : Except Unit (List Palette) :=
  if (LumpParser.new l).has_data_left then
    if h : 768 ≤ l.length then
      match parsePalettes (l.drop 768) with
      | Except.ok ps => Except.ok (Palette.from_bytes (l.take 768) :: ps)
      | Except.error e => Except.error e
    else Except.error ()
  else Except.ok []
termination_by l.length
decreasing_by simp only [List.length_drop]; omega

/-- Model of `PlaypalLump::parse`. -/
def PlaypalLump.parse (data : List Nat) : Except Unit PlaypalLump :=
  match parsePalettes data with
  | Except.ok ps => Except.ok ⟨ps⟩
  | Except.error e => Except.error e

/-- Model of `textures::Patch` (`lumps.rs`). The Rust fields `_stepdir` and
`_colormap` carry a leading underscore (reserved fields); it is dropped here. -/
structure Patch where
  x_offset : Int
  y_offset : Int
  pname_index : Int
  stepdir : Int
  colormap : Int
deriving DecidableEq

/-- Model of `textures::Patch::from_bytes` on a 10-byte chunk: five
little-endian `i16` fields at byte ranges 0..2, 2..4, 4..6, 6..8, 8..10. -/
def Patch.from_bytes (bytes : List Nat) : Patch :=
  ⟨toI16 (bytes.take 2),
   toI16 ((bytes.drop 2).take 2),
   toI16 ((bytes.drop 4).take 2),
   toI16 ((bytes.drop 6).take 2),
   toI16 ((bytes.drop 8).take 2)⟩

/-- Model of `textures::TexEntry`. Rust fields `_masked` and
`_columndirectory` carry a leading underscore (reserved fields). -/
structure TexEntry where
  name : WadString
  masked : Int
  tex_width : Int
  tex_height : Int
  columndirectory : Int
  num_patches : Int
  patches : List Patch
deriving DecidableEq

/-- Translation of the `(0..num_patches).map(...).collect::<Result<_>>()`
loop in `TexEntry::parse`: read `n` 10-byte chunks in sequence, decoding each
with `Patch::from_bytes`, short-circuiting on the first error. -/
def readPatches : Nat → LumpParser → Except Unit (List Patch) × LumpParser
  | 0, p => (Except.ok [], p)
  | n + 1, p =>
    match p.read_chunk 10 with
    | (Except.error _, p2) => (Except.error (), p2)
    | (Except.ok bs, p2) =>
      match readPatches n p2 with
      | (Except.error _, p3) => (Except.error (), p3)
      | (Except.ok ps, p3) => (Except.ok (Patch.from_bytes bs :: ps), p3)

/-- Model of `textures::TexEntry::parse`: 8-byte name (validated through
`WadString::from_bytes`), `i32` masked, `i16` width, `i16` height, `i32`
column directory, `i16` patch count, then that many 10-byte patch records
(`(0..n)` over a negative `i16` iterates zero times, hence `Int.toNat`).
Intentionally does not call `finish`: trailing bytes are tolerated. -/
def TexEntry.parse (data : List Nat) : Except Unit TexEntry :=
  let p := LumpParser.new data
  match p.read_chunk 8 with
  | (Except.error _, _) => Except.error ()
  | (Except.ok nameBytes, p1) =>
    match WadString.from_bytes nameBytes with
    | Except.error _ => Except.error ()
    | Except.ok name =>
      match p1.read_i32 with
      | (Except.error _, _) => Except.error ()
      | (Except.ok masked, p2) =>
        match p2.read_i16 with
        | (Except.error _, _) => Except.error ()
        | (Except.ok w, p3) =>
          match p3.read_i16 with
          | (Except.error _, _) => Except.error ()
          | (Except.ok hgt, p4) =>
            match p4.read_i32 with
            | (Except.error _, _) => Except.error ()
            | (Except.ok cd, p5) =>
              match p5.read_i16 with
              | (Except.error _, _) => Except.error ()
              | (Except.ok np, p6) =>
                match readPatches np.toNat p6 with
                | (Except.error _, _) => Except.error ()
                | (Except.ok ps, _) =>
                  Except.ok ⟨name, masked, w, hgt, cd, np, ps⟩

/-- Translation of the `(0..num_textures).map(|_| parser.read_i32())` loop in
`TexturesLump::parse`: read `n` little-endian `i32` offsets in sequence,
short-circuiting on the first error. -/
def readOffsets : Nat → LumpParser → Except Unit (List Int) × LumpParser
  | 0, p => (Except.ok [], p)
  | n + 1, p =>
    match p.read_i32 with
    | (Except.error _, p2) => (Except.error (), p2)
    | (Except.ok v, p2) =>
      match readOffsets n p2 with
      | (Except.error _, p3) => (Except.error (), p3)
      | (Except.ok vs, p3) => (Except.ok (v :: vs), p3)

/-- Translation of the per-offset loop in `TexturesLump::parse`:
`offsets.iter().map(|o| TexEntry::parse(&data[(*o as usize)..])).collect()`.
Rust's `&data[i..]` panics when `i > data.len()` (modelled as `none`);
`collect::<Result<_>>` short-circuits at the first `Err`, so offsets after a
failed one are never touched. Each record gets a fresh cursor on the suffix
of the shared lump buffer at its own offset. -/
def parseTexEntries (data : List Nat) : List Int → Option (Except Unit (List TexEntry))
  | [] => some (Except.ok [])
  | o :: os =>
    let i := usizeOfI32 o
    if i ≤ data.length then
      match TexEntry.parse (data.drop i) with
      | Except.error _ => some (Except.error ())
      | Except.ok e =>
        match parseTexEntries data os with
        | none => none
        | some (Except.error _) => some (Except.error ())
        | some (Except.ok es) => some (Except.ok (e :: es))
    else none

/-- Model of `TexturesLump`. -/
structure TexturesLump where
  num_textures : Int
  offsets : List Int
  textures : List TexEntry
deriving DecidableEq

/-- Model of `TexturesLump::parse`: `i32` count, that many `i32` offsets
(`(0..n)` over a negative count iterates zero times), then one `TexEntry`
per offset, in table order, each at its own offset into `data`. The outer
`Option` is the panic layer of `parseTexEntries`. -/
def TexturesLump.parse (data : List Nat) : Option (Except Unit TexturesLump) :=
  let p := LumpParser.new data
  match p.read_i32 with
  | (Except.error _, _) => some (Except.error ())
  | (Except.ok n, p1) =>
    match readOffsets n.toNat p1 with
    | (Except.error _, _) => some (Except.error ())
    | (Except.ok offs, _) =>
      match parseTexEntries data offs with
      | none => none
      | some (Except.error _) => some (Except.error ())
      | some (Except.ok es) => some (Except.ok ⟨n, offs, es⟩)

/-- Model of `PnamesLump`. -/
structure PnamesLump where
  pnames : List WadString
deriving DecidableEq

/-- Translation of the `(0..num_patches).map(...)` loop in
`PnamesLump::parse`: read `n` 8-byte chunks, each validated through
`WadString::from_bytes`, short-circuiting on the first error. -/
def readPnames : Nat → LumpParser → Except Unit (List WadString) × LumpParser
  | 0, p => (Except.ok [], p)
  | n + 1, p =>
    match p.read_chunk 8 with
    | (Except.error _, p2) => (Except.error (), p2)
    | (Except.ok bs, p2) =>
      match WadString.from_bytes bs with
      | Except.error _ => (Except.error (), p2)
      | Except.ok s =>
        match readPnames n p2 with
        | (Except.error _, p3) => (Except.error (), p3)
        | (Except.ok ss, p3) => (Except.ok (s :: ss), p3)

/-- Model of `PnamesLump::parse`: `i32` count, that many 8-byte names
(`(0..n)` over a negative count iterates zero times), then `finish`:
trailing bytes are an error. -/
def PnamesLump.parse (data : List Nat) : Except Unit PnamesLump :=
  let p := LumpParser.new data
  match p.read_i32 with
  | (Except.error _, _) => Except.error ()
  | (Except.ok num_patches, p1) =>
    match readPnames num_patches.toNat p1 with
    | (Except.error _, _) => Except.error ()
    | (Except.ok names, p2) =>
      match p2.finish with
      | Except.error _ => Except.error ()
      | Except.ok _ => Except.ok ⟨names⟩

/-- Reference decoding of `m` consecutive 10-byte patch records from a byte
list, used to state what `TexEntry::parse` produces. -/
def decodePatchList : Nat → List Nat → List Patch
  | 0, _ => []
  | m + 1, l => Patch.from_bytes (l.take 10) :: decodePatchList m (l.drop 10)

/-- Reference decoding of `n` consecutive 8-byte names from a byte list,
used to state what `PnamesLump::parse` produces. -/
def namesList : Nat → List Nat → List WadString
  | 0, _ => []
  | n + 1, l => ⟨l.take 8⟩ :: namesList n (l.drop 8)

/-- Extract the value of a successful `TexEntry::parse`; the fallback is
never reached in the statements that use this. -/
def texEntryOrDefault (x : Except Unit TexEntry) : TexEntry :=
  match x with
  | Except.ok e => e
  | Except.error _ => ⟨⟨[]⟩, 0, 0, 0, 0, 0, []⟩

/-! ## Helper lemmas -/

/-- Reading exactly the length of the first summand of an appended buffer
returns that summand and leaves the rest. -/
theorem read_slice_append (xs ys : List Nat) (n : Nat) (h : xs.length = n) :
    LumpParser.read_slice ⟨xs ++ ys⟩ n = (Except.ok xs, ⟨ys⟩) := by
  simp [LumpParser.read_slice, ← h, List.take_left, List.drop_left]

/-- `read_chunk` version of `read_slice_append`. -/
theorem read_chunk_append (xs ys : List Nat) (n : Nat) (h : xs.length = n) :
    LumpParser.read_chunk ⟨xs ++ ys⟩ n = (Except.ok xs, ⟨ys⟩) :=
  read_slice_append xs ys n h

/-- `read_i16` on a buffer starting with its 2 operand bytes. -/
theorem read_i16_append (xs ys : List Nat) (h : xs.length = 2) :
    LumpParser.read_i16 ⟨xs ++ ys⟩ = (Except.ok (toI16 xs), ⟨ys⟩) := by
  simp [LumpParser.read_i16, read_chunk_append xs ys 2 h]

/-- `read_i32` on a buffer starting with its 4 operand bytes. -/
theorem read_i32_append (xs ys : List Nat) (h : xs.length = 4) :
    LumpParser.read_i32 ⟨xs ++ ys⟩ = (Except.ok (toI32 xs), ⟨ys⟩) := by
  simp [LumpParser.read_i32, read_chunk_append xs ys 4 h]

/-- `read_i32` on any buffer holding at least 4 bytes. -/
theorem read_i32_of_le (l : List Nat) (h : 4 ≤ l.length) :
    LumpParser.read_i32 ⟨l⟩ = (Except.ok (toI32 (l.take 4)), ⟨l.drop 4⟩) := by
  have := read_i32_append (l.take 4) (l.drop 4)
    (by simp [List.length_take]; omega)
  rwa [List.take_append_drop] at this

/-- Construction succeeds on all-ASCII bytes and returns them unchanged. -/
theorem wadString_new_of_ascii (bytes : List Nat) (h : ∀ b ∈ bytes, b ≤ 127) :
    WadString.new bytes = Except.ok ⟨bytes⟩ := by
  have : bytes.any (fun b => 127 < b) = false := by
    simp only [List.any_eq_false, decide_eq_true_eq]
    intro b hb
    exact Nat.not_lt.mpr (h b hb)
  simp [WadString.new, this]

/-- Reading `m` 10-byte patch records off a buffer that starts with exactly
`10 * m` patch bytes consumes them and leaves the rest untouched. -/
theorem readPatches_append (m : Nat) (pb rest : List Nat)
    (h : pb.length = 10 * m) :
    readPatches m ⟨pb ++ rest⟩ = (Except.ok (decodePatchList m pb), ⟨rest⟩) := by
  induction m generalizing pb rest with
  | zero =>
    have hpb : pb = [] := List.length_eq_zero.mp (by omega)
    subst hpb
    simp [readPatches, decodePatchList]
  | succ n ih =>
    have hsplit : pb ++ rest = pb.take 10 ++ (pb.drop 10 ++ rest) := by
      rw [← List.append_assoc, List.take_append_drop]
    rw [hsplit]
    simp only [readPatches]
    rw [read_chunk_append (pb.take 10) (pb.drop 10 ++ rest) 10
      (by simp [List.length_take]; omega)]
    simp only [ih (pb.drop 10) rest (by simp [List.length_drop]; omega),
      decodePatchList]

/-- When every table offset is within the lump and the record there decodes,
the per-offset loop returns all decoded entries in table order. -/
theorem parseTexEntries_ok (data : List Nat) (offs : List Int)
    (hok : ∀ o ∈ offs, usizeOfI32 o ≤ data.length ∧
      (TexEntry.parse (data.drop (usizeOfI32 o))).isOk = true) :
    parseTexEntries data offs =
      some (Except.ok (offs.map (fun o =>
        texEntryOrDefault (TexEntry.parse (data.drop (usizeOfI32 o)))))) := by
  induction offs with
  | nil => rfl
  | cons o os ih =>
    obtain ⟨hle, hok1⟩ := hok o (List.mem_cons_self o os)
    obtain ⟨e, he⟩ :
        ∃ e, TexEntry.parse (data.drop (usizeOfI32 o)) = Except.ok e := by
      cases hcase : TexEntry.parse (data.drop (usizeOfI32 o)) with
      | ok e => exact ⟨e, rfl⟩
      | error err =>
        rw [hcase] at hok1
        simp [Except.isOk, Except.toBool] at hok1
    have ih2 := ih (fun u hu => hok u (List.mem_cons_of_mem o hu))
    simp only [parseTexEntries, hle, if_true, if_pos, he, ih2, List.map_cons,
      texEntryOrDefault]

/-- The reference name decode always yields exactly `n` names. -/
theorem namesList_length (n : Nat) : ∀ l : List Nat, (namesList n l).length = n := by
  induction n with
  | zero => intro l; rfl
  | succ k ih => intro l; simp [namesList, ih (l.drop 8)]

/-- Inversion for a successful `readPnames`: the buffer held at least
`8 * n` bytes, exactly `8 * n` bytes were consumed, `n` names were produced
and every consumed byte is ASCII. -/
theorem readPnames_ok_inv (n : Nat) :
    ∀ (l : List Nat) (names : List WadString) (q : LumpParser),
    readPnames n ⟨l⟩ = (Except.ok names, q) →
    8 * n ≤ l.length ∧ q = ⟨l.drop (8 * n)⟩ ∧ names.length = n ∧
      ∀ b ∈ l.take (8 * n), b ≤ 127 := by
  induction n with
  | zero =>
    intro l names q h
    simp only [readPnames, Prod.mk.injEq, Except.ok.injEq] at h
    obtain ⟨h1, h2⟩ := h
    subst h1
    subst h2
    simp
  | succ k ih =>
    intro l names q h
    by_cases h8 : 8 ≤ l.length
    · have hc : LumpParser.read_chunk ⟨l⟩ 8 =
          (Except.ok (l.take 8), ⟨l.drop 8⟩) := by
        simp [LumpParser.read_chunk, LumpParser.read_slice, h8]
      simp only [readPnames, hc] at h
      by_cases ha : (l.take 8).any (fun b => 127 < b)
      · have hbad : WadString.from_bytes (l.take 8) = Except.error () := by
          simp [WadString.from_bytes, WadString.new, ha]
        rw [hbad] at h
        exact absurd h (by simp)
      · have hascii8 : ∀ b ∈ l.take 8, b ≤ 127 := by
          simp only [List.any_eq_true, decide_eq_true_eq, not_exists,
            not_and] at ha
          exact fun b hb => Nat.not_lt.mp (ha b hb)
        have hgood : WadString.from_bytes (l.take 8) =
            Except.ok ⟨l.take 8⟩ := wadString_new_of_ascii (l.take 8) hascii8
        rw [hgood] at h
        rcases hrec : readPnames k ⟨l.drop 8⟩ with ⟨res, p3⟩
        rw [hrec] at h
        cases res with
        | error e => exact absurd h (by simp)
        | ok ss =>
          simp only [Prod.mk.injEq, Except.ok.injEq] at h
          obtain ⟨hnames, hq⟩ := h
          subst hnames
          subst hq
          obtain ⟨hlk, hp3, hslen, hsascii⟩ := ih (l.drop 8) ss p3 hrec
          have hmul : 8 * (k + 1) = 8 + 8 * k := by ring
          refine ⟨?_, ?_, ?_, ?_⟩
          · simp [List.length_drop] at hlk
            omega
          · rw [hp3, hmul]
            simp [List.drop_drop]
          · simp [hslen]
          · intro b hb
            rw [hmul, List.take_add] at hb
            rcases List.mem_append.mp hb with hb1 | hb2
            · exact hascii8 b hb1
            · exact hsascii b hb2
    · have hc : LumpParser.read_chunk ⟨l⟩ 8 = (Except.error (), ⟨[]⟩) := by
        simp [LumpParser.read_chunk, LumpParser.read_slice, h8]
      simp only [readPnames, hc] at h
      exact absurd h (by simp)

/-- A buffer of at least `8 * n` all-ASCII bytes yields the reference name
decode, consuming exactly `8 * n` bytes. -/
theorem readPnames_ok_of_ascii (n : Nat) :
    ∀ l : List Nat, 8 * n ≤ l.length → (∀ b ∈ l, b ≤ 127) →
    readPnames n ⟨l⟩ = (Except.ok (namesList n l), ⟨l.drop (8 * n)⟩) := by
  induction n with
  | zero =>
    intro l _ _
    simp [readPnames, namesList]
  | succ k ih =>
    intro l hlen ha
    have h8 : 8 ≤ l.length := by omega
    have hc : LumpParser.read_chunk ⟨l⟩ 8 =
        (Except.ok (l.take 8), ⟨l.drop 8⟩) := by
      simp [LumpParser.read_chunk, LumpParser.read_slice, h8]
    have hname : WadString.from_bytes (l.take 8) = Except.ok ⟨l.take 8⟩ :=
      wadString_new_of_ascii (l.take 8)
        (fun b hb => ha b (List.take_subset 8 l hb))
    have ihh := ih (l.drop 8) (by simp [List.length_drop]; omega)
      (fun b hb => ha b (List.drop_subset 8 l hb))
    have hmul : 8 * (k + 1) = 8 + 8 * k := by ring
    simp only [readPnames, hc, hname, ihh, namesList, hmul, List.drop_drop]

/-- The 3-byte chunking produces one chunk per three input bytes. -/
theorem chunksOf3_length (l : List Nat) :
    (chunksOf3 l).length = l.length / 3 := by
  match l with
  | [] => rfl
  | [a] => simp [chunksOf3]
  | [a, b] => simp [chunksOf3]
  | b0 :: b1 :: b2 :: rest =>
    have ih := chunksOf3_length rest
    simp only [chunksOf3, List.length_cons, ih]
    omega
termination_by l.length

/-- Peeling one 768-byte chunk off the front of the chunk-indexed palette
map. -/
theorem chunkMap_cons (l : List Nat) (k : Nat) :
    (List.range (k + 1)).map
        (fun i => Palette.from_bytes ((l.drop (768 * i)).take 768)) =
      Palette.from_bytes (l.take 768) ::
        (List.range k).map
          (fun i => Palette.from_bytes (((l.drop 768).drop (768 * i)).take 768)) := by
  rw [List.range_succ_eq_map, List.map_cons, List.map_map]
  refine congrArg₂ List.cons (by simp) ?_
  apply List.map_congr_left
  intro i _
  have harith : 768 * (i + 1) = 768 + 768 * i := by ring
  simp only [Function.comp_apply, List.drop_drop, Nat.succ_eq_add_one, harith]

/-- Characterization of the palette loop: it succeeds exactly on inputs
whose length is a multiple of 768, decoding the consecutive 768-byte chunks
in order. The `fuel` bound drives the induction. -/
theorem parsePalettes_spec (fuel : Nat) :
    ∀ l : List Nat, l.length ≤ fuel →
    (768 ∣ l.length → parsePalettes l =
      Except.ok ((List.range (l.length / 768)).map
        (fun i => Palette.from_bytes ((l.drop (768 * i)).take 768)))) ∧
    (¬ 768 ∣ l.length → parsePalettes l = Except.error ()) := by
  induction fuel with
  | zero =>
    intro l hl
    have hnil : l = [] := List.length_eq_zero.mp (by omega)
    subst hnil
    refine ⟨fun _ => ?_, fun hdvd => absurd ⟨0, by norm_num⟩ hdvd⟩
    rw [parsePalettes]
    simp [LumpParser.new, LumpParser.has_data_left]
  | succ f ih =>
    intro l hl
    by_cases hnil : l = []
    · subst hnil
      refine ⟨fun _ => ?_, fun hdvd => absurd ⟨0, by norm_num⟩ hdvd⟩
      rw [parsePalettes]
      simp [LumpParser.new, LumpParser.has_data_left]
    · have hdl : (LumpParser.new l).has_data_left = true := by
        simp [LumpParser.new, LumpParser.has_data_left, hnil]
      by_cases h768 : 768 ≤ l.length
      · have ihd := ih (l.drop 768) (by simp only [List.length_drop]; omega)
        constructor
        · intro hdvd
          have hdvd' : 768 ∣ (l.drop 768).length := by
            simp only [List.length_drop]
            exact Nat.dvd_sub' hdvd dvd_rfl
          have hrec := ihd.1 hdvd'
          rw [parsePalettes]
          simp only [hdl, if_true, h768, dif_pos, hrec]
          simp only [Except.ok.injEq]
          have hq : l.length / 768 = (l.drop 768).length / 768 + 1 := by
            simp only [List.length_drop]
            omega
          rw [hq, chunkMap_cons]
        · intro hndvd
          have hndvd' : ¬ 768 ∣ (l.drop 768).length := by
            simp only [List.length_drop]
            intro hc
            apply hndvd
            have hsum : l.length = (l.length - 768) + 768 := by omega
            rw [hsum]
            exact Nat.dvd_add hc dvd_rfl
          have hrec := ihd.2 hndvd'
          rw [parsePalettes]
          simp [hdl, h768, hrec]
      · constructor
        · intro hdvd
          exfalso
          have hpos : 0 < l.length := List.length_pos.mpr hnil
          exact h768 (Nat.le_of_dvd hpos hdvd)
        · intro _
          rw [parsePalettes]
          simp [hdl, h768]

/-- Rendering a byte list whose bytes are all ASCII never hits the panic arm
and yields the characters before the first zero byte. -/
theorem fmtMapWhile_of_ascii (bytes : List Nat) (h : ∀ b ∈ bytes, b ≤ 127) :
    fmtMapWhile bytes =
      some ((bytes.takeWhile (fun b => b ≠ 0)).map Char.ofNat) := by
  induction bytes with
  | nil => rfl
  | cons b bs ih =>
    by_cases hb : b = 0
    · subst hb
      simp [fmtMapWhile, List.takeWhile_cons]
    · have hble : b ≤ 127 := h b (List.mem_cons_self b bs)
      have ih2 := ih (fun x hx => h x (List.mem_cons_of_mem b hx))
      simp [fmtMapWhile, hb, hble, ih2, List.takeWhile_cons]

/-! ## Claim theorems -/

/-- Claim C1 (code_bug evidence). For the lump `[1,0,0,0, 9,0,0,0]`
(`count = 1`, single offset `9`, lump length `8`) the claimed behaviour is a
whole-lump `OutOfBounds` error, but `TexturesLump::parse` evaluates
`&data[9..]` on an 8-byte buffer, which panics (`none` in the model).
At offset exactly equal to the length (`8`), slicing yields an empty suffix
and the decode fails with an orderly error, as the claim says. -/
theorem texturesLump_parse_oob_offset_panics :
    TexturesLump.parse [1, 0, 0, 0, 9, 0, 0, 0] = none ∧
    TexturesLump.parse [1, 0, 0, 0, 8, 0, 0, 0] = some (Except.error ()) :=
  ⟨rfl, rfl⟩

/-- Claim C2 (code_bug evidence). On the 16-byte directory record whose
ninth byte (first name byte) is `128`, the claimed behaviour is an
`InvalidCharacter` error, but `WadDirectoryEntry::new` calls
`WadString::new(..).unwrap()`, which panics (`none` in the model). On a
well-formed record it decodes the little-endian offset and size and the
name (the repository's own unit-test vector). -/
theorem wadDirectoryEntry_new_nonascii_panics :
    WadDirectoryEntry.new [0, 0, 0, 0, 0, 0, 0, 0, 128, 0, 0, 0, 0, 0, 0, 0] = none ∧
    WadDirectoryEntry.new
        [42, 0, 0, 0, 0, 4, 0, 0, 67, 79, 76, 79, 82, 77, 65, 80] =
      some ⟨42, 1024, ⟨[67, 79, 76, 79, 82, 77, 65, 80]⟩⟩ :=
  ⟨rfl, rfl⟩

/-- Claim C4. When a read asks for more bytes than remain, every primitive
cursor read (`read_slice`, `read_chunk`, `read_i16`, `read_i32`) fails with
`TruncatedInput` (the crate's `Err(())`) without panicking, and afterwards
the cursor is exhausted: `has_data_left` is false and every subsequent read
of at least one byte fails as well. -/
theorem lumpParser_truncated_exhausts (p : LumpParser) (n : Nat)
    (h : p.remaining.length < n) :
    p.read_slice n = (Except.error (), ⟨[]⟩) ∧
    p.read_chunk n = (Except.error (), ⟨[]⟩) ∧
    (p.remaining.length < 2 → p.read_i16 = (Except.error (), ⟨[]⟩)) ∧
    (p.remaining.length < 4 → p.read_i32 = (Except.error (), ⟨[]⟩)) ∧
    (p.read_slice n).2.has_data_left = false ∧
    (∀ m, 1 ≤ m → ((p.read_slice n).2.read_slice m).1 = Except.error ()) := by
  have hs : p.read_slice n = (Except.error (), ⟨[]⟩) := by
    simp [LumpParser.read_slice, Nat.not_le.mpr h]
  refine ⟨hs, hs, ?_, ?_, ?_, ?_⟩
  · intro h2
    simp [LumpParser.read_i16, LumpParser.read_chunk, LumpParser.read_slice,
      Nat.not_le.mpr h2]
  · intro h4
    simp [LumpParser.read_i32, LumpParser.read_chunk, LumpParser.read_slice,
      Nat.not_le.mpr h4]
  · rw [hs]
    simp [LumpParser.has_data_left]
  · intro m hm
    rw [hs]
    simp only [LumpParser.read_slice]
    rw [if_neg (by simp; omega)]

/-- Witness for C4 at the concrete cursor over `[0]` asked for 2 bytes. -/
theorem lumpParser_truncated_exhausts_witness :
    LumpParser.read_slice ⟨[0]⟩ 2 = (Except.error (), ⟨[]⟩) :=
  (lumpParser_truncated_exhausts ⟨[0]⟩ 2 (by decide)).1

/-- Claim C9. For an 8-byte input, `WadString::new` fails with
`InvalidCharacter` (the crate's `Err(())`) exactly when some byte exceeds
127; a successfully constructed string keeps its bytes, and rendering
yields the characters strictly before the first zero byte (all 8 characters
when no zero byte occurs). -/
theorem wadString_construct_and_render (bytes : List Nat)
    (h8 : bytes.length = 8) :
    (WadString.new bytes = Except.error () ↔ ∃ b ∈ bytes, 127 < b) ∧
    (∀ s, WadString.new bytes = Except.ok s →
      s.bytes = bytes ∧ s.bytes.length = 8 ∧
      s.fmt = some ((bytes.takeWhile (fun b => b ≠ 0)).map Char.ofNat)) := by
  constructor
  · by_cases hc : ∃ b ∈ bytes, 127 < b
    · have hany : bytes.any (fun b => 127 < b) = true := by
        simp only [List.any_eq_true, decide_eq_true_eq]
        exact hc
      simp [WadString.new, hany, hc]
    · have hany : bytes.any (fun b => 127 < b) = false := by
        simp only [List.any_eq_false, decide_eq_true_eq]
        intro b hb hlt
        exact hc ⟨b, hb, hlt⟩
      simp [WadString.new, hany, hc]
  · intro s hs
    by_cases hc : bytes.any (fun b => 127 < b)
    · simp [WadString.new, hc] at hs
    · have hascii : ∀ b ∈ bytes, b ≤ 127 := by
        simp only [List.any_eq_true, decide_eq_true_eq, not_exists, not_and] at hc
        exact fun b hb => Nat.not_lt.mp (hc b hb)
      rw [wadString_new_of_ascii bytes hascii] at hs
      cases hs
      exact ⟨rfl, h8, fmtMapWhile_of_ascii bytes hascii⟩

/-- Witness for C9: "COLORMAP" renders as "COLORMAP" and "DEMO1\x00\x00\x00"
renders as "DEMO1". -/
theorem wadString_construct_and_render_witness :
    WadString.fmt ⟨[67, 79, 76, 79, 82, 77, 65, 80]⟩ =
      some ['C', 'O', 'L', 'O', 'R', 'M', 'A', 'P'] ∧
    WadString.fmt ⟨[68, 69, 77, 79, 49, 0, 0, 0]⟩ =
      some ['D', 'E', 'M', 'O', '1'] := by
  constructor
  · have h := ((wadString_construct_and_render
      [67, 79, 76, 79, 82, 77, 65, 80] (by decide)).2
      ⟨[67, 79, 76, 79, 82, 77, 65, 80]⟩ rfl).2.2
    exact h.trans (by decide)
  · have h := ((wadString_construct_and_render
      [68, 69, 77, 79, 49, 0, 0, 0] (by decide)).2
      ⟨[68, 69, 77, 79, 49, 0, 0, 0]⟩ rfl).2.2
    exact h.trans (by decide)

/-- Claim C10. A 4-byte lump whose bytes decode to a negative little-endian
count makes the count-prefixed decoders iterate zero times: `PnamesLump` and
`TexturesLump` both succeed with empty contents instead of failing. -/
theorem negativeCount_parses_empty (b0 b1 b2 b3 : Nat)
    (hneg : toI32 [b0, b1, b2, b3] < 0) :
    PnamesLump.parse [b0, b1, b2, b3] = Except.ok ⟨[]⟩ ∧
    TexturesLump.parse [b0, b1, b2, b3] =
      some (Except.ok ⟨toI32 [b0, b1, b2, b3], [], []⟩) := by
  have h4 : (LumpParser.new [b0, b1, b2, b3]).read_i32 =
      (Except.ok (toI32 [b0, b1, b2, b3]), ⟨[]⟩) := rfl
  have h0 : (toI32 [b0, b1, b2, b3]).toNat = 0 :=
    Int.toNat_eq_zero.mpr (le_of_lt hneg)
  constructor
  · simp [PnamesLump.parse, h4, h0, readPnames, LumpParser.finish,
      LumpParser.has_data_left]
  · simp [TexturesLump.parse, h4, h0, readOffsets, parseTexEntries]

/-- Witness for C10 at count `-1` (bytes `FF FF FF FF`). -/
theorem negativeCount_parses_empty_witness :
    PnamesLump.parse [255, 255, 255, 255] = Except.ok ⟨[]⟩ ∧
    TexturesLump.parse [255, 255, 255, 255] =
      some (Except.ok ⟨toI32 [255, 255, 255, 255], [], []⟩) :=
  negativeCount_parses_empty 255 255 255 255 (by decide)

/-- Claim C3 counterexample. For the entry `{offset 0, size 4}` and a
3-byte buffer, the claim as stated requires a `SizeMismatch` error return,
but `read_lump` hits `assert!(buf.len() == self.size_bytes as usize)` and
panics (`none` in the model), so it does not return an error. -/
theorem read_lump_mismatch_asserts :
    WadDirectoryEntry.read_lump ⟨0, 4, ⟨[80, 0, 0, 0, 0, 0, 0, 0]⟩⟩ 3
      [1, 2, 3, 4, 5] = none :=
  rfl

/-- Claim C3 as amended. A buffer whose length differs from
`entry.size as usize` makes `read_lump` panic on its assertion (`none`);
with a matching buffer it succeeds, filling the buffer with exactly
`entry.size` bytes read from storage starting at `entry.offset`, whenever
that many bytes are available at the offset — in particular a zero-size
buffer succeeds even when the offset points past the end of storage, since
`read_exact` on an empty buffer returns `Ok` — and fails with an
`IoFailure` error when fewer than `entry.size` bytes are available there. -/
theorem read_lump_behavior (e : WadDirectoryEntry) (bufLen : Nat)
    (storage : List Nat) :
    (bufLen ≠ usizeOfI32 e.size_bytes →
      e.read_lump bufLen storage = none) ∧
    (bufLen = usizeOfI32 e.size_bytes →
      (bufLen ≤ storage.length - usizeOfI32 e.offset_bytes →
        e.read_lump bufLen storage =
          some (Except.ok
            ((storage.drop (usizeOfI32 e.offset_bytes)).take bufLen)) ∧
        ((storage.drop (usizeOfI32 e.offset_bytes)).take bufLen).length =
          bufLen) ∧
      (storage.length - usizeOfI32 e.offset_bytes < bufLen →
        e.read_lump bufLen storage = some (Except.error ()))) := by
  refine ⟨fun hne => ?_, fun heq => ⟨fun hin => ⟨?_, ?_⟩, fun hout => ?_⟩⟩
  · simp [WadDirectoryEntry.read_lump, hne]
  · subst heq
    simp [WadDirectoryEntry.read_lump, hin]
  · simp only [List.length_take, List.length_drop]
    omega
  · subst heq
    simp [WadDirectoryEntry.read_lump, Nat.not_le.mpr hout]

/-- Witness for the amended C3: entry `{offset 1, size 2}` against the
5-byte storage `[9, 8, 7, 6, 5]` succeeds with the two bytes at offset 1,
and the zero-size entry `{offset 10, size 0}` succeeds with an empty read
even though its offset is past the end of the 3-byte storage. -/
theorem read_lump_behavior_witness :
    (WadDirectoryEntry.read_lump ⟨1, 2, ⟨[80, 0, 0, 0, 0, 0, 0, 0]⟩⟩ 2
        [9, 8, 7, 6, 5] = some (Except.ok [8, 7]) ∧
      ([8, 7] : List Nat).length = 2) ∧
    (WadDirectoryEntry.read_lump ⟨10, 0, ⟨[80, 0, 0, 0, 0, 0, 0, 0]⟩⟩ 0
        [1, 2, 3] = some (Except.ok []) ∧
      ([] : List Nat).length = 0) :=
  ⟨((read_lump_behavior ⟨1, 2, ⟨[80, 0, 0, 0, 0, 0, 0, 0]⟩⟩ 2
      [9, 8, 7, 6, 5]).2 (by decide)).1 (by decide),
   ((read_lump_behavior ⟨10, 0, ⟨[80, 0, 0, 0, 0, 0, 0, 0]⟩⟩ 0
      [1, 2, 3]).2 (by decide)).1 (by decide)⟩

/-- Claim C5 counterexample. A 22-byte buffer holding one complete texture
record (patch count 0, so the record spans exactly bytes 0..22) whose first
name byte is `128` makes `TexEntry::parse` fail with `InvalidCharacter`
(the crate's `Err(())`) even though the record lies fully within the
buffer, so containment alone does not imply success. -/
theorem texEntry_parse_nonascii_fails :
    TexEntry.parse
        [128, 0, 0, 0, 0, 0, 0, 0, 0, 0, 0,
         0, 0, 0, 0, 0, 0, 0, 0, 0, 0, 0] = Except.error () ∧
    ([128, 0, 0, 0, 0, 0, 0, 0, 0, 0, 0,
      0, 0, 0, 0, 0, 0, 0, 0, 0, 0, 0] : List Nat).length = 22 ∧
    toI16 [0, 0] = 0 :=
  ⟨rfl, rfl, rfl⟩

/-- Claim C5 as amended. For a buffer that starts with a complete texture
record whose 8 name bytes are all ASCII (at most 127) — 8-byte name, 4-byte
reserved field, 2-byte width, 2-byte height, 4-byte reserved field, 2-byte
patch count declaring `M` patches, then `10 * M` patch bytes —
`TexEntry::parse` succeeds and yields exactly the little-endian-decoded
fields and the `M` decoded 10-byte patch records, for arbitrary trailing
bytes `rest`: the per-record cursor is not required to be exhausted. -/
theorem texEntry_parse_complete (nameB m4 w2 h2 c4b p2b pb rest : List Nat)
    (hn : nameB.length = 8) (hm : m4.length = 4) (hw : w2.length = 2)
    (hh : h2.length = 2) (hc : c4b.length = 4) (hp : p2b.length = 2)
    (hascii : ∀ b ∈ nameB, b ≤ 127)
    (hpb : pb.length = 10 * (toI16 p2b).toNat) :
    TexEntry.parse
        (nameB ++ (m4 ++ (w2 ++ (h2 ++ (c4b ++ (p2b ++ (pb ++ rest))))))) =
      Except.ok ⟨⟨nameB⟩, toI32 m4, toI16 w2, toI16 h2, toI32 c4b,
        toI16 p2b, decodePatchList (toI16 p2b).toNat pb⟩ := by
  have r1 := read_chunk_append nameB
    (m4 ++ (w2 ++ (h2 ++ (c4b ++ (p2b ++ (pb ++ rest)))))) 8 hn
  have hname := wadString_new_of_ascii nameB hascii
  have r2 := read_i32_append m4 (w2 ++ (h2 ++ (c4b ++ (p2b ++ (pb ++ rest))))) hm
  have r3 := read_i16_append w2 (h2 ++ (c4b ++ (p2b ++ (pb ++ rest)))) hw
  have r4 := read_i16_append h2 (c4b ++ (p2b ++ (pb ++ rest))) hh
  have r5 := read_i32_append c4b (p2b ++ (pb ++ rest)) hc
  have r6 := read_i16_append p2b (pb ++ rest) hp
  have r7 := readPatches_append (toI16 p2b).toNat pb rest hpb
  simp only [TexEntry.parse, LumpParser.new, r1, WadString.from_bytes, hname,
    r2, r3, r4, r5, r6, r7]

/-- Claim C6 counterexample. In the lump
`[1,0,0,0, 8,0,0,0]` followed by a 22-byte record starting with name byte
`128`, the single table offset `8` addresses a record fully contained in the
30-byte buffer (patch count 0, `8 + 22 ≤ 30`), yet `TexturesLump::parse`
fails instead of succeeding: containment of every addressed record does not
suffice when a name byte is not ASCII. -/
theorem texturesLump_parse_nonascii_fails :
    TexturesLump.parse
        [1, 0, 0, 0, 8, 0, 0, 0,
         128, 0, 0, 0, 0, 0, 0, 0, 0, 0, 0, 0, 0, 0, 0, 0, 0, 0, 0, 0, 0, 0] =
      some (Except.error ()) ∧
    ([1, 0, 0, 0, 8, 0, 0, 0,
      128, 0, 0, 0, 0, 0, 0, 0, 0, 0, 0, 0, 0, 0, 0, 0, 0, 0, 0, 0, 0, 0] :
        List Nat).length = 30 ∧
    usizeOfI32 (toI32 [8, 0, 0, 0]) + 22 ≤ 30 ∧
    toI16 [0, 0] = 0 :=
  ⟨rfl, rfl, by decide, rfl⟩

/-- Claim C6 as amended. Whenever the count and the offset table read
successfully and every table offset lands inside the buffer at a record
that decodes (fully contained, with ASCII name bytes), `TexturesLump::parse`
succeeds — with no requirement that the offsets be increasing, contiguous or
non-overlapping — and the entries appear in offset-table order, each decoded
from a fresh cursor on the lump suffix at its own offset. -/
theorem texturesLump_parse_table_order (data : List Nat) (n : Int)
    (p1 p2 : LumpParser) (offs : List Int)
    (h1 : (LumpParser.new data).read_i32 = (Except.ok n, p1))
    (h2 : readOffsets n.toNat p1 = (Except.ok offs, p2))
    (hok : ∀ o ∈ offs, usizeOfI32 o ≤ data.length ∧
      (TexEntry.parse (data.drop (usizeOfI32 o))).isOk = true) :
    TexturesLump.parse data =
      some (Except.ok ⟨n, offs, offs.map (fun o =>
        texEntryOrDefault (TexEntry.parse (data.drop (usizeOfI32 o))))⟩) := by
  simp only [TexturesLump.parse, h1, h2, parseTexEntries_ok data offs hok]

/-- Witness for the amended C6: a lump whose two offsets `13, 12` are
decreasing and address overlapping in-bounds records decodes both entries,
in table order. -/
theorem texturesLump_parse_table_order_witness :
    TexturesLump.parse
        [2, 0, 0, 0, 13, 0, 0, 0, 12, 0, 0, 0,
         0, 0, 0, 0, 0, 0, 0, 0, 0, 0, 0, 0, 0, 0, 0, 0, 0, 0, 0, 0, 0, 0, 0] =
      some (Except.ok ⟨2, [13, 12], ([13, 12] : List Int).map (fun o =>
        texEntryOrDefault (TexEntry.parse
          (([2, 0, 0, 0, 13, 0, 0, 0, 12, 0, 0, 0,
             0, 0, 0, 0, 0, 0, 0, 0, 0, 0, 0, 0, 0, 0, 0, 0, 0, 0, 0, 0, 0,
             0, 0] : List Nat).drop (usizeOfI32 o))))⟩) :=
  texturesLump_parse_table_order
    [2, 0, 0, 0, 13, 0, 0, 0, 12, 0, 0, 0,
     0, 0, 0, 0, 0, 0, 0, 0, 0, 0, 0, 0, 0, 0, 0, 0, 0, 0, 0, 0, 0, 0, 0]
    2
    ⟨[13, 0, 0, 0, 12, 0, 0, 0,
      0, 0, 0, 0, 0, 0, 0, 0, 0, 0, 0, 0, 0, 0, 0, 0, 0, 0, 0, 0, 0, 0, 0]⟩
    ⟨[0, 0, 0, 0, 0, 0, 0, 0, 0, 0, 0, 0, 0, 0, 0, 0, 0, 0, 0, 0, 0, 0, 0]⟩
    [13, 12] rfl rfl (by decide)

/-- Claim C7 counterexample. The buffer `{count = 1, one 8-byte name whose
first byte is 128}` has exactly `4 + 8 * 1` bytes — nothing remains after
the declared names — yet `PnamesLump::parse` fails (`InvalidCharacter` on
the name), so "succeeds iff no bytes remain afterward" is false as stated. -/
theorem pnamesLump_parse_nonascii_fails :
    PnamesLump.parse [1, 0, 0, 0, 128, 0, 0, 0, 0, 0, 0, 0] =
      Except.error () ∧
    ([1, 0, 0, 0, 128, 0, 0, 0, 0, 0, 0, 0] : List Nat).length = 4 + 8 * 1 ∧
    toI32 [1, 0, 0, 0] = 1 :=
  ⟨rfl, rfl, rfl⟩

/-- Claim C7 as amended. For a buffer holding at least the 4-byte count,
`PnamesLump::parse` succeeds (with as many entries as the count declares)
if and only if the bytes after the count are all ASCII and the buffer holds
exactly `4 + 8 * count` bytes, i.e. no bytes remain after the declared
names; in particular any trailing byte is a `TrailingData` failure. -/
theorem pnamesLump_parse_exact_iff (data : List Nat) (h4 : 4 ≤ data.length) :
    (∃ r, PnamesLump.parse data = Except.ok r ∧
        r.pnames.length = (toI32 (data.take 4)).toNat) ↔
      (data.length = 4 + 8 * (toI32 (data.take 4)).toNat ∧
        ∀ b ∈ data.drop 4, b ≤ 127) := by
  have hr := read_i32_of_le data h4
  constructor
  · rintro ⟨r, hparse, hrlen⟩
    simp only [PnamesLump.parse, LumpParser.new, hr] at hparse
    rcases hread : readPnames (toI32 (data.take 4)).toNat ⟨data.drop 4⟩
      with ⟨res, q⟩
    rw [hread] at hparse
    cases res with
    | error e => exact absurd hparse (by simp)
    | ok names =>
      obtain ⟨hle, hq, hnames, hascii⟩ :=
        readPnames_ok_inv (toI32 (data.take 4)).toNat (data.drop 4) names q
          hread
      by_cases hfin : q.has_data_left
      · simp [LumpParser.finish, hfin] at hparse
      · have hrem : q.remaining = [] := by
          simpa [LumpParser.has_data_left, List.isEmpty_iff] using hfin
        rw [hq] at hrem
        have hlen2 := congrArg List.length hrem
        simp only [List.length_drop, List.length_nil] at hlen2
        have hEq : (data.drop 4).length = 8 * (toI32 (data.take 4)).toNat := by
          simp only [List.length_drop] at hle ⊢
          omega
        constructor
        · simp only [List.length_drop] at hEq
          omega
        · intro b hb
          apply hascii b
          rw [List.take_of_length_le (le_of_eq hEq)]
          exact hb
  · rintro ⟨hlen, ha⟩
    have hlen' : 8 * (toI32 (data.take 4)).toNat ≤ (data.drop 4).length := by
      simp only [List.length_drop]
      omega
    have hread := readPnames_ok_of_ascii (toI32 (data.take 4)).toNat
      (data.drop 4) hlen' ha
    have hdropnil :
        (data.drop 4).drop (8 * (toI32 (data.take 4)).toNat) = [] :=
      List.drop_eq_nil_of_le (by simp only [List.length_drop]; omega)
    refine ⟨⟨namesList (toI32 (data.take 4)).toNat (data.drop 4)⟩, ?_, ?_⟩
    · simp only [PnamesLump.parse, LumpParser.new, hr, hread, hdropnil,
        LumpParser.finish, LumpParser.has_data_left]
      simp
    · exact namesList_length (toI32 (data.take 4)).toNat (data.drop 4)

/-- Witness for the amended C7: `{count = 2, names "PATCH01", "PATCH02"}`
with no trailing byte decodes to exactly 2 entries. -/
theorem pnamesLump_parse_exact_iff_witness :
    ∃ r, PnamesLump.parse
        [2, 0, 0, 0, 80, 65, 84, 67, 72, 48, 49, 0,
         80, 65, 84, 67, 72, 48, 50, 0] = Except.ok r ∧
      r.pnames.length =
        (toI32 (([2, 0, 0, 0, 80, 65, 84, 67, 72, 48, 49, 0,
          80, 65, 84, 67, 72, 48, 50, 0] : List Nat).take 4)).toNat :=
  (pnamesLump_parse_exact_iff
    [2, 0, 0, 0, 80, 65, 84, 67, 72, 48, 49, 0, 80, 65, 84, 67, 72, 48, 50, 0]
    (by decide)).mpr ⟨by decide, by decide⟩

/-- Claim C8. `PlaypalLump::parse` succeeds exactly when the input length
is a multiple of 768; on success it yields `length / 768` palettes, the
`i`-th decoded from bytes `768*i .. 768*(i+1)` in order, and every palette
holds exactly 256 RGB colors. -/
theorem playpalLump_parse_characterization (data : List Nat) :
    ((∃ r, PlaypalLump.parse data = Except.ok r) ↔ 768 ∣ data.length) ∧
    (∀ r, PlaypalLump.parse data = Except.ok r →
      r.palettes = (List.range (data.length / 768)).map
        (fun i => Palette.from_bytes ((data.drop (768 * i)).take 768)) ∧
      r.palettes.length = data.length / 768 ∧
      ∀ pal ∈ r.palettes, pal.colors.length = 256) := by
  have hspec := parsePalettes_spec data.length data le_rfl
  have hmain : ∀ r, PlaypalLump.parse data = Except.ok r →
      r.palettes = (List.range (data.length / 768)).map
        (fun i => Palette.from_bytes ((data.drop (768 * i)).take 768)) := by
    intro r hr
    by_cases hdvd : 768 ∣ data.length
    · simp only [PlaypalLump.parse, hspec.1 hdvd, Except.ok.injEq] at hr
      rw [← hr]
    · simp only [PlaypalLump.parse, hspec.2 hdvd] at hr
      exact absurd hr (by simp)
  refine ⟨⟨?_, ?_⟩, ?_⟩
  · rintro ⟨r, hr⟩
    by_contra hndvd
    simp only [PlaypalLump.parse, hspec.2 hndvd] at hr
    exact absurd hr (by simp)
  · intro hdvd
    exact ⟨⟨(List.range (data.length / 768)).map
        (fun i => Palette.from_bytes ((data.drop (768 * i)).take 768))⟩,
      by simp only [PlaypalLump.parse, hspec.1 hdvd]⟩
  · intro r hr
    have hpal := hmain r hr
    refine ⟨hpal, ?_, ?_⟩
    · simp [hpal]
    · intro pal hmem
      rw [hpal] at hmem
      simp only [List.mem_map, List.mem_range] at hmem
      obtain ⟨i, hi, hpaleq⟩ := hmem
      have hle : (i + 1) * 768 ≤ data.length :=
        (Nat.le_div_iff_mul_le (by norm_num)).mp hi
      have hchunk : ((data.drop (768 * i)).take 768).length = 768 := by
        simp only [List.length_take, List.length_drop]
        omega
      rw [← hpaleq]
      rw [Palette.from_bytes]
      rw [List.length_map, chunksOf3_length, hchunk]

/-- Witness for C8: a 768-byte buffer decodes (to one palette), a 769-byte
buffer does not decode. -/
theorem playpalLump_parse_characterization_witness :
    (∃ r, PlaypalLump.parse (List.replicate 768 7) = Except.ok r) ∧
    ¬ (∃ r, PlaypalLump.parse (List.replicate 769 7) = Except.ok r) := by
  constructor
  · exact (playpalLump_parse_characterization (List.replicate 768 7)).1.mpr
      ⟨1, by rw [List.length_replicate, Nat.mul_one]⟩
  · intro hex
    have hdvd :=
      (playpalLump_parse_characterization (List.replicate 769 7)).1.mp hex
    rw [List.length_replicate] at hdvd
    omega

/-- Witness for the amended C5: a concrete record with one patch and one
trailing byte decodes to its little-endian fields, tolerating the trailer. -/
theorem texEntry_parse_complete_witness :
    TexEntry.parse
        ([84, 69, 88, 84, 85, 82, 69, 49] ++ ([1, 0, 0, 0] ++ ([64, 0] ++
          ([128, 0] ++ ([0, 0, 0, 0] ++ ([1, 0] ++
            ([5, 0, 6, 0, 2, 0, 0, 0, 0, 0] ++ [255]))))))) =
      Except.ok ⟨⟨[84, 69, 88, 84, 85, 82, 69, 49]⟩, toI32 [1, 0, 0, 0],
        toI16 [64, 0], toI16 [128, 0], toI32 [0, 0, 0, 0], toI16 [1, 0],
        decodePatchList (toI16 [1, 0]).toNat [5, 0, 6, 0, 2, 0, 0, 0, 0, 0]⟩ :=
  texEntry_parse_complete [84, 69, 88, 84, 85, 82, 69, 49] [1, 0, 0, 0]
    [64, 0] [128, 0] [0, 0, 0, 0] [1, 0] [5, 0, 6, 0, 2, 0, 0, 0, 0, 0] [255]
    (by decide) (by decide) (by decide) (by decide) (by decide) (by decide)
    (by decide) (by decide)

end RDoom
